import Mathlib

/-!
Shallow embedding of the core of the `oriac` Cairo virtual machine
(`src/cairo/lang/vm` and `src/cairo/lang/compiler`) and proofs about it.

Conventions of the embedding:
* `BigInt` is modelled by `Int`.  The Rust `%` operator on `BigInt`
  truncates towards zero (the remainder takes the sign of the dividend),
  which is `Int.tmod` in Lean.
* Rust functions that can `panic!` or hit a `todo!()` are modelled with
  `Except VMErr`, with one distinguished error constructor per panic site.
* `HashMap` is modelled by an association list where inserting an existing
  key replaces its value, and `HashSet` by a duplicate-free insertion list;
  only membership, not order, is relied upon.
* The recursion of `MemoryDict::relocate_value` is not structurally
  terminating (it recurses through the relocation-rule table), so it is
  modelled with an explicit fuel parameter; a result of `none`
  (or the error `VMErr.nonTermination`) means the Rust recursion does not
  terminate on that input.
* Validation rules and auto-deduction rules are stored as closures in the
  Rust code; here the rule tables are threaded as explicit function
  parameters (`VRules`, `ARules`) instead of being stored inside the state.
-/

/-- `RelocatableValue` from `src/cairo/lang/vm/relocatable.rs`. -/
structure RelocatableValue where
  segmentIndex : Int
  offset : Int
deriving DecidableEq, Repr

/-- `MaybeRelocatable` from `src/cairo/lang/vm/relocatable.rs`. -/
inductive MaybeRelocatable where
  | int (value : Int)
  | rel (value : RelocatableValue)
deriving DecidableEq, Repr

/-- Error type covering the VM layer: the variants of `memory_dict::Error`,
`RunContextError` and `VirtualMachineError`, one constructor per panic site,
and `nonTermination` marking inputs on which the Rust code does not return. -/
inductive VMErr where
  | negativeValue (num : Int)
  | unknownMemory (addr : MaybeRelocatable)
  | memoryFrozen
  | invalidOff2Value
  | unknownOp0
  | pureValue
  | assertEqWithUnconstrained
  | assertEqFailed (dst res : MaybeRelocatable)
  | addWithUnconstrained
  | jumpWithUnconstrained
  | jumpRelWithUnconstrained
  | inconsistentAutoDeduction (addr : RelocatableValue) (current new : MaybeRelocatable)
  | failedToWriteReturnPc (op0 returnPc : MaybeRelocatable)
  | failedToWriteReturnFp (dst returnFp : MaybeRelocatable)
  | hintExecute
  | panicAddRelocatable
  | panicSubFromInt
  | panicSubSegmentMismatch
  | panicInstructionNotInt
  | panicTodo
  | unsupportedInstruction
  | invalidOp1Encoding
  | missingImmediate
  | invalidPcUpdateEncoding
  | invalidResEncoding
  | jnzResNotUnconstrained
  | invalidApUpdateEncoding
  | callApUpdateMismatch
  | invalidOpcodeEncoding
  | nonTermination
deriving DecidableEq, Repr

/-- `impl Add<&MaybeRelocatable> for MaybeRelocatable`: adding two
relocatable values panics. -/
def MaybeRelocatable.add : MaybeRelocatable → MaybeRelocatable → Except VMErr MaybeRelocatable
  | .int l, .int r => .ok (.int (l + r))
  | .int l, .rel r => .ok (.rel ⟨r.segmentIndex, r.offset + l⟩)
  | .rel l, .int r => .ok (.rel ⟨l.segmentIndex, l.offset + r⟩)
  | .rel _, .rel _ => .error .panicAddRelocatable

/-- `impl Sub<&MaybeRelocatable> for MaybeRelocatable` together with
`impl Sub<&MaybeRelocatable> for RelocatableValue`: an `Int` left-hand side
panics, and subtracting relocatables of different segments panics. -/
def MaybeRelocatable.sub : MaybeRelocatable → MaybeRelocatable → Except VMErr MaybeRelocatable
  | .int _, _ => .error .panicSubFromInt
  | .rel l, .int r => .ok (.rel ⟨l.segmentIndex, l.offset - r⟩)
  | .rel l, .rel r =>
    if l.segmentIndex = r.segmentIndex then .ok (.int (l.offset - r.offset))
    else .error .panicSubSegmentMismatch

/-- `impl Add<&BigInt> for MaybeRelocatable` (total). -/
def MaybeRelocatable.addInt : MaybeRelocatable → Int → MaybeRelocatable
  | .int l, r => .int (l + r)
  | .rel l, r => .rel ⟨l.segmentIndex, l.offset + r⟩

/-- `impl Rem<&BigInt> for MaybeRelocatable` (total; Rust `%` on `BigInt`
is truncated remainder, i.e. `Int.tmod`). -/
def MaybeRelocatable.mod : MaybeRelocatable → Int → MaybeRelocatable
  | .int l, r => .int (l.tmod r)
  | .rel l, r => .rel ⟨l.segmentIndex, l.offset.tmod r⟩

/-- `impl PartialEq<RelocatableValue> for MaybeRelocatable`. -/
def MaybeRelocatable.eqRel : MaybeRelocatable → RelocatableValue → Bool
  | .int _, _ => false
  | .rel l, r => l = r

/-- Association-list lookup, modelling `HashMap::get`. -/
def assocGet {α β : Type} [DecidableEq α] : List (α × β) → α → Option β
  | [], _ => none
  | (k, v) :: t, key => if k = key then some v else assocGet t key

/-- Association-list insertion, modelling `HashMap::insert`
(replaces the value of an existing key). -/
def assocSet {α β : Type} [DecidableEq α] : List (α × β) → α → β → List (α × β)
  | [], key, value => [(key, value)]
  | (k, v) :: t, key, value =>
    if k = key then (k, value) :: t else (k, v) :: assocSet t key value

/-- Duplicate-free insertion, modelling `HashSet::insert`. -/
def setInsert {α : Type} [DecidableEq α] (l : List α) (a : α) : List α :=
  if a ∈ l then l else a :: l

/-- `MemoryDict` from `src/cairo/lang/vm/memory_dict.rs`. -/
structure MemoryDict where
  data : List (MaybeRelocatable × MaybeRelocatable)
  frozen : Bool
  relocationRules : List (Int × RelocatableValue)
deriving DecidableEq, Repr

/-- `MemoryDict::new`. -/
def MemoryDict.new : MemoryDict := ⟨[], false, []⟩

/-- Fuelled embedding of `MemoryDict::relocate_value`.  The Rust function
recurses through the relocation rules with no cycle detection; `none` means
the recursion does not finish within `fuel` calls. -/
def relocateValueF : Nat → List (Int × RelocatableValue) → MaybeRelocatable →
    Option MaybeRelocatable
  | 0, _, _ => none
  | _ + 1, _, .int n => some (.int n)
  | fuel + 1, rules, .rel r =>
    if r.segmentIndex ≥ 0 then some (.rel r)
    else
      match assocGet rules r.segmentIndex with
      | some relocation =>
        (relocateValueF fuel rules (.rel relocation)).map fun x => x.addInt r.offset
      | none => some (.rel r)

/-- `MemoryDict::relocate_value` at the canonical fuel: whenever the Rust
recursion terminates its depth is bounded by the number of rules plus one,
so `none` here means the Rust call diverges. -/
def MemoryDict.relocateValue (m : MemoryDict) (v : MaybeRelocatable) :
    Option MaybeRelocatable :=
  relocateValueF (m.relocationRules.length + 1) m.relocationRules v

/-- `MemoryDict::check_element` (only the `Int` case can fail). -/
def MemoryDict.checkElement (num : MaybeRelocatable) : Except VMErr Unit :=
  match num with
  | .int n => if n < 0 then .error (.negativeValue n) else .ok ()
  | .rel _ => .ok ()

/-- `MemoryDict::get`: stored value (or the default), with relocation rules
applied to the result.  It cannot fail in Rust; `nonTermination` marks a
diverging `relocate_value` call. -/
def MemoryDict.memGet (m : MemoryDict) (addr : MaybeRelocatable)
    (defaultValue : Option MaybeRelocatable) : Except VMErr (Option MaybeRelocatable) :=
  match (match assocGet m.data addr with
         | some v => some v
         | none => defaultValue) with
  | none => .ok none
  | some v =>
    match m.relocateValue v with
    | some r => .ok (some r)
    | none => .error .nonTermination

/-- `MemoryDict::index`: checks the address, fails with `UnknownMemory` on
an unassigned address, and relocates the stored value. -/
def MemoryDict.memIndex (m : MemoryDict) (addr : MaybeRelocatable) :
    Except VMErr MaybeRelocatable :=
  match MemoryDict.checkElement addr with
  | .error e => .error e
  | .ok _ =>
    match assocGet m.data addr with
    | none => .error (.unknownMemory addr)
    | some v =>
      match m.relocateValue v with
      | some r => .ok r
      | none => .error .nonTermination

/-- `MemoryDict::index_set`: a plain `HashMap::insert`.  Note that the Rust
function performs no consistency or frozen check and cannot fail. -/
def MemoryDict.indexSet (m : MemoryDict) (addr value : MaybeRelocatable) : MemoryDict :=
  { m with data := assocSet m.data addr value }

/-- `MemoryDict::freeze`. -/
def MemoryDict.freeze (m : MemoryDict) : MemoryDict := { m with frozen := true }

/-- Relocates one `(addr, value)` pair; `none` if either call diverges. -/
def relocateEntry (m : MemoryDict) (e : MaybeRelocatable × MaybeRelocatable) :
    Option (MaybeRelocatable × MaybeRelocatable) :=
  match m.relocateValue e.1, m.relocateValue e.2 with
  | some a, some v => some (a, v)
  | _, _ => none

/-- Relocates all entries of the memory map; `none` if any call diverges. -/
def relocateEntries (m : MemoryDict) :
    List (MaybeRelocatable × MaybeRelocatable) →
    Option (List (MaybeRelocatable × MaybeRelocatable))
  | [] => some []
  | e :: t =>
    match relocateEntry m e, relocateEntries m t with
    | some e', some t' => some (e' :: t')
    | _, _ => none

/-- Rebuilds the `HashMap` from relocated items (`collect`): a later item
with the same key overwrites an earlier one. -/
def buildMap (items : List (MaybeRelocatable × MaybeRelocatable)) :
    List (MaybeRelocatable × MaybeRelocatable) :=
  items.foldl (fun acc e => assocSet acc e.1 e.2) []

/-- `MemoryDict::relocate_memory`: fails with `MemoryFrozen` if the memory
is frozen, is a no-op without rules, otherwise rewrites every entry through
`relocate_value` and clears the rules. -/
def MemoryDict.relocateMemory (m : MemoryDict) : Except VMErr MemoryDict :=
  if m.frozen then .error .memoryFrozen
  else if m.relocationRules = [] then .ok m
  else
    match relocateEntries m m.data with
    | none => .error .nonTermination
    | some items => .ok ⟨buildMap items, m.frozen, []⟩

/-- `Register` from `src/cairo/lang/compiler/instruction.rs`. -/
inductive Register where
  | AP
  | FP
deriving DecidableEq, Repr

/-- `Op1Addr` from `src/cairo/lang/compiler/instruction.rs`. -/
inductive Op1Addr where
  | IMM
  | AP
  | FP
  | OP0
deriving DecidableEq, Repr

/-- `Res` from `src/cairo/lang/compiler/instruction.rs`. -/
inductive Res where
  | OP1
  | ADD
  | MUL
  | UNCONSTRAINED
deriving DecidableEq, Repr

/-- `PcUpdate` from `src/cairo/lang/compiler/instruction.rs`. -/
inductive PcUpdate where
  | REGULAR
  | JUMP
  | JUMP_REL
  | JNZ
deriving DecidableEq, Repr

/-- `ApUpdate` from `src/cairo/lang/compiler/instruction.rs`. -/
inductive ApUpdate where
  | REGULAR
  | ADD
  | ADD1
  | ADD2
deriving DecidableEq, Repr

/-- `FpUpdate` from `src/cairo/lang/compiler/instruction.rs`. -/
inductive FpUpdate where
  | REGULAR
  | AP_PLUS2
  | DST
deriving DecidableEq, Repr

/-- `Opcode` from `src/cairo/lang/compiler/instruction.rs`. -/
inductive Opcode where
  | NOP
  | ASSERT_EQ
  | CALL
  | RET
deriving DecidableEq, Repr

/-- `Instruction` from `src/cairo/lang/compiler/instruction.rs`.  The three
offsets are `i16` values in `[-2^15, 2^15)`, modelled as `Int`. -/
structure Instruction where
  off0 : Int
  off1 : Int
  off2 : Int
  imm : Option Int
  dstRegister : Register
  op0Register : Register
  op1Addr : Op1Addr
  res : Res
  pcUpdate : PcUpdate
  apUpdate : ApUpdate
  fpUpdate : FpUpdate
  opcode : Opcode
deriving DecidableEq, Repr

/-- `Instruction::size`: 2 iff an immediate is present. -/
def Instruction.instSize (i : Instruction) : Int :=
  if i.imm.isSome then 2 else 1

/-- `decode_instruction_values`: splits a (checked non-negative, below
`2^63`) encoding into `(flags, off0, off1, off2)`; `panic!` on an
out-of-range encoding is modelled as an error. -/
def decodeInstructionValues (enc : Int) : Except VMErr (Int × Int × Int × Int) :=
  if enc < 0 ∨ enc ≥ 2 ^ 63 then .error .unsupportedInstruction
  else .ok (enc / 2 ^ 48, enc % 2 ^ 16, (enc / 2 ^ 16) % 2 ^ 16, (enc / 2 ^ 32) % 2 ^ 16)

/-- `(&flags >> bit) & BigInt::from(1) > BigInt::from(0)` for a
non-negative `flags`. -/
def flagBit (flags : Int) (b : Nat) : Bool := (flags / 2 ^ b) % 2 = 1

/-- The op1-source match of `decode_instruction` on the flag bits
`(OP1_IMM, OP1_AP, OP1_FP)`. -/
def decodeOp1 (flags : Int) : Except VMErr Op1Addr :=
  match flagBit flags 2, flagBit flags 4, flagBit flags 3 with
  | true, false, false => .ok .IMM
  | false, true, false => .ok .AP
  | false, false, true => .ok .FP
  | false, false, false => .ok .OP0
  | _, _, _ => .error .invalidOp1Encoding

/-- The pc-update match of `decode_instruction` on the flag bits
`(PC_JUMP_ABS, PC_JUMP_REL, PC_JNZ)`. -/
def decodePcUpdate (flags : Int) : Except VMErr PcUpdate :=
  match flagBit flags 7, flagBit flags 8, flagBit flags 9 with
  | true, false, false => .ok .JUMP
  | false, true, false => .ok .JUMP_REL
  | false, false, true => .ok .JNZ
  | false, false, false => .ok .REGULAR
  | _, _, _ => .error .invalidPcUpdateEncoding

/-- The res match of `decode_instruction` on the flag bits
`(RES_ADD, RES_MUL)`; with both bits unset the result depends on
`pc_update`. -/
def decodeRes (flags : Int) (pcUpdate : PcUpdate) : Except VMErr Res :=
  match flagBit flags 5, flagBit flags 6 with
  | true, false => .ok .ADD
  | false, true => .ok .MUL
  | false, false => .ok (match pcUpdate with | .JNZ => .UNCONSTRAINED | _ => .OP1)
  | true, true => .error .invalidResEncoding

/-- The ap-update match of `decode_instruction` on the flag bits
`(AP_ADD, AP_ADD1)`. -/
def decodeApUpdate (flags : Int) : Except VMErr ApUpdate :=
  match flagBit flags 10, flagBit flags 11 with
  | true, false => .ok .ADD
  | false, true => .ok .ADD1
  | false, false => .ok .REGULAR
  | true, true => .error .invalidApUpdateEncoding

/-- The opcode match of `decode_instruction` on the flag bits
`(OPCODE_CALL, OPCODE_RET, OPCODE_ASSERT_EQ)`. -/
def decodeOpcode (flags : Int) : Except VMErr Opcode :=
  match flagBit flags 12, flagBit flags 13, flagBit flags 14 with
  | true, false, false => .ok .CALL
  | false, true, false => .ok .RET
  | false, false, true => .ok .ASSERT_EQ
  | false, false, false => .ok .NOP
  | _, _, _ => .error .invalidOpcodeEncoding

/-- `decode_instruction` from `src/cairo/lang/compiler/encode.rs`, with
every `panic!` modelled as a distinct error. -/
def decodeInstruction (encoding : Int) (imm : Option Int) : Except VMErr Instruction :=
  match decodeInstructionValues encoding with
  | .error e => .error e
  | .ok (flags, off0Enc, off1Enc, off2Enc) =>
  let dstRegister := if flagBit flags 0 then Register.FP else Register.AP
  let op0Register := if flagBit flags 1 then Register.FP else Register.AP
  match decodeOp1 flags with
  | .error e => .error e
  | .ok op1Addr =>
  match (match op1Addr with
         | .IMM => (match imm with
                    | none => Except.error VMErr.missingImmediate
                    | some v => Except.ok (some v))
         | _ => Except.ok none) with
  | .error e => .error e
  | .ok immVal =>
  match decodePcUpdate flags with
  | .error e => .error e
  | .ok pcUpdate =>
  match decodeRes flags pcUpdate with
  | .error e => .error e
  | .ok res =>
  if pcUpdate = .JNZ ∧ res ≠ .UNCONSTRAINED then .error .jnzResNotUnconstrained
  else
  match decodeApUpdate flags with
  | .error e => .error e
  | .ok apUpdateWire =>
  match decodeOpcode flags with
  | .error e => .error e
  | .ok opcode =>
  match (if opcode = .CALL then
           (if apUpdateWire ≠ ApUpdate.REGULAR then Except.error VMErr.callApUpdateMismatch
            else Except.ok ApUpdate.ADD2)
         else Except.ok apUpdateWire) with
  | .error e => .error e
  | .ok apUpdate =>
  let fpUpdate := match opcode with
    | .CALL => FpUpdate.AP_PLUS2
    | .RET => FpUpdate.DST
    | _ => FpUpdate.REGULAR
  .ok { off0 := off0Enc - 2 ^ 15, off1 := off1Enc - 2 ^ 15, off2 := off2Enc - 2 ^ 15,
        imm := immVal, dstRegister := dstRegister, op0Register := op0Register,
        op1Addr := op1Addr, res := res, pcUpdate := pcUpdate, apUpdate := apUpdate,
        fpUpdate := fpUpdate, opcode := opcode }

/-- `TraceEntry<MaybeRelocatable>` from `src/cairo/lang/vm/trace_entry.rs`. -/
structure TraceEntry where
  pc : MaybeRelocatable
  ap : MaybeRelocatable
  fp : MaybeRelocatable
deriving DecidableEq, Repr

/-- Abstract outcome of executing one compiled hint.  In the Rust code a
hint runs embedded Python that can fail (`HintExecuteError`), succeed, or
set `skip_instruction_execution`; it does not modify the registers, the
trace, the step counter or the modelled memory. -/
inductive HintOutcome where
  | fail
  | setSkip
  | noop
deriving DecidableEq, Repr

/-- The mutable state of `VirtualMachine` together with its `RunContext`
(`src/cairo/lang/vm/vm_core.rs`): registers, prime, memory with its
validated-address cache, accessed addresses, trace, step counter, the
skip flag and the hints table. -/
structure VMState where
  prime : Int
  pc : MaybeRelocatable
  ap : MaybeRelocatable
  fp : MaybeRelocatable
  memory : MemoryDict
  validatedAddresses : List RelocatableValue
  accessedAddresses : List MaybeRelocatable
  trace : List TraceEntry
  currentStep : Int
  skipInstructionExecution : Bool
  hints : List (MaybeRelocatable × List HintOutcome)
deriving DecidableEq, Repr

/-- A validation rule (`validated_memory_dict::ValidationRule`): reads the
memory and returns the addresses it validated. -/
def VRule : Type := MemoryDict → RelocatableValue → List RelocatableValue

/-- The `validation_rules` table, keyed by segment index. -/
def VRules : Type := Int → Option (List VRule)

/-- An auto-deduction rule (`vm_core::Rule`): reads the machine state and
may produce a value for the cell. -/
def ARule : Type := VMState → RelocatableValue → Option Int

/-- The `auto_deduction` table, keyed by segment index. -/
def ARules : Type := Int → Option (List ARule)

/-- The rule loop inside `ValidatedMemoryDict::validate_memory_cell`:
each rule reads the memory and its results are added to
`validated_addresses`. -/
def runValRules : List VRule → RelocatableValue → VMState → VMState
  | [], _, s => s
  | rule :: t, a, s =>
    let found := rule s.memory a
    runValRules t a
      { s with validatedAddresses := found.foldl setInsert s.validatedAddresses }

/-- `ValidatedMemoryDict::validate_memory_cell`. -/
def validateMemoryCell (vrules : VRules) (s : VMState) (addr _value : MaybeRelocatable) :
    VMState :=
  match addr with
  | .int _ => s
  | .rel a =>
    if a ∈ s.validatedAddresses then s
    else
      match vrules a.segmentIndex with
      | some rules => runValRules rules a s
      | none => s

/-- `ValidatedMemoryDict::index_set`: insert into the underlying memory,
then run the validation rules.  (The Rust `Result` can only carry a mutex
poisoning error, which cannot occur single-threaded.) -/
def validatedIndexSet (vrules : VRules) (s : VMState) (addr value : MaybeRelocatable) :
    VMState :=
  validateMemoryCell vrules { s with memory := s.memory.indexSet addr value } addr value

/-- The rule loop inside `VirtualMachine::deduce_memory_cell`: a rule that
produces a value writes it through the validated memory. -/
def runAutoRules (vrules : VRules) : List ARule → RelocatableValue → VMState → VMState
  | [], _, s => s
  | rule :: t, a, s =>
    match rule s a with
    | some value => runAutoRules vrules t a (validatedIndexSet vrules s (.rel a) (.int value))
    | none => runAutoRules vrules t a s

/-- `VirtualMachine::deduce_memory_cell`.  Note that the Rust function
returns `None` on every path (deduced values are only written to memory,
never returned). -/
def deduceMemoryCell (arules : ARules) (vrules : VRules) (addr : MaybeRelocatable)
    (s : VMState) : Option MaybeRelocatable × VMState :=
  match addr with
  | .int _ => (none, s)
  | .rel a =>
    match arules a.segmentIndex with
    | some rules => (none, runAutoRules vrules rules a s)
    | none => (none, s)

/-- `RunContext::compute_dst_addr`. -/
def computeDstAddr (i : Instruction) (s : VMState) : MaybeRelocatable :=
  let baseAddr := match i.dstRegister with
    | .AP => s.ap
    | .FP => s.fp
  (baseAddr.addInt i.off0).mod s.prime

/-- `RunContext::compute_op0_addr`. -/
def computeOp0Addr (i : Instruction) (s : VMState) : MaybeRelocatable :=
  let baseAddr := match i.op0Register with
    | .AP => s.ap
    | .FP => s.fp
  (baseAddr.addInt i.off1).mod s.prime

/-- `RunContext::compute_op1_addr`. -/
def computeOp1Addr (i : Instruction) (s : VMState) (op0 : Option MaybeRelocatable) :
    Except VMErr MaybeRelocatable :=
  match (match i.op1Addr with
         | .FP => Except.ok s.fp
         | .AP => Except.ok s.ap
         | .IMM =>
           if i.off2 ≠ 1 then Except.error VMErr.invalidOff2Value else Except.ok s.pc
         | .OP0 =>
           (match op0 with
            | some op0 => Except.ok op0
            | none => Except.error VMErr.unknownOp0)) with
  | .error e => .error e
  | .ok baseAddr => .ok ((baseAddr.addInt i.off2).mod s.prime)

/-- `is_zero` from `src/cairo/lang/vm/vm_core.rs`. -/
def isZeroMR : MaybeRelocatable → Except VMErr Bool
  | .int v => .ok (v = 0)
  | .rel r => if r.offset ≥ 0 then .ok false else .error .pureValue

/-- `check_eq` from `src/cairo/lang/vm/vm_core.rs` (plain equality). -/
def checkEqMR (v0 v1 : MaybeRelocatable) : Bool := v0 = v1

/-- `VirtualMachine::deduce_op0`.  The `Res::MUL` case with a non-zero
`op1` hits a `todo!()`, and the subtraction in the `Res::ADD` case panics
on an `Int` dst. -/
def deduceOp0 (prime : Int) (pc : MaybeRelocatable) (i : Instruction)
    (dst op1 : Option MaybeRelocatable) :
    Except VMErr (Option MaybeRelocatable × Option MaybeRelocatable) :=
  match i.opcode with
  | .CALL => .ok (some (pc.addInt i.instSize), none)
  | .ASSERT_EQ =>
    match i.res, dst, op1 with
    | .ADD, some dst, some op1 =>
      match dst.sub op1 with
      | .error e => .error e
      | .ok d => .ok (some (d.mod prime), some dst)
    | .MUL, some (.int _), some (.int op1) =>
      if op1 ≠ 0 then .error .panicTodo else .ok (none, none)
    | _, _, _ => .ok (none, none)
  | _ => .ok (none, none)

/-- `VirtualMachine::deduce_op1`.  The final `else` branch is a `todo!()`
in the Rust code, as is the `Res::MUL` case with non-zero `op0`. -/
def deduceOp1 (prime : Int) (i : Instruction)
    (dst op0 : Option MaybeRelocatable) :
    Except VMErr (Option MaybeRelocatable × Option MaybeRelocatable) :=
  match i.opcode with
  | .ASSERT_EQ =>
    match i.res, dst, op0 with
    | .OP1, some dst, _ => .ok (some dst, some dst)
    | .ADD, some dst, some op0 =>
      match dst.sub op0 with
      | .error e => .error e
      | .ok d => .ok (some (d.mod prime), some dst)
    | .MUL, some (.int _), some (.int op0) =>
      if op0 ≠ 0 then .error .panicTodo else .ok (none, none)
    | _, _, _ => .error .panicTodo
  | _ => .ok (none, none)

/-- `VirtualMachine::compute_res`. -/
def computeRes (prime : Int) (i : Instruction) (op0 op1 : MaybeRelocatable) :
    Except VMErr (Option MaybeRelocatable) :=
  match i.res with
  | .OP1 => .ok (some op1)
  | .ADD =>
    match op0.add op1 with
    | .error e => .error e
    | .ok v => .ok (some (v.mod prime))
  | .MUL =>
    match op0, op1 with
    | .int op0, .int op1 => .ok (some (.int ((op0 * op1).tmod prime)))
    | _, _ => .error .pureValue
  | .UNCONSTRAINED => .ok none

/-- `Operands` from `src/cairo/lang/vm/vm_core.rs`. -/
structure Operands where
  dst : MaybeRelocatable
  res : Option MaybeRelocatable
  op0 : MaybeRelocatable
  op1 : MaybeRelocatable
deriving DecidableEq, Repr

/-- The `if matches!(op, None) { op = self.deduce_memory_cell(..) }` step
of `compute_operands` for one operand. -/
def autoDeduceStep (arules : ARules) (vrules : VRules) (fetch : Option MaybeRelocatable)
    (addr : MaybeRelocatable) (s : VMState) : Option MaybeRelocatable × VMState :=
  if fetch.isNone then deduceMemoryCell arules vrules addr s else (fetch, s)

/-- First phase of `VirtualMachine::compute_operands`: compute the three
operand addresses, fetch `dst, op0, op1` from memory, and run the
auto-deduction rules for a still-unknown `op0`/`op1` (whose result is
always `none`, see `deduceMemoryCell`).  Returns
`(dst, op0, op1, dst_addr, op0_addr, op1_addr)`. -/
def coFetch (arules : ARules) (vrules : VRules) (i : Instruction) (s : VMState) :
    Except VMErr (Option MaybeRelocatable × Option MaybeRelocatable ×
      Option MaybeRelocatable × MaybeRelocatable × MaybeRelocatable ×
      MaybeRelocatable) × VMState :=
  match s.memory.memGet (computeDstAddr i s) none with
  | .error e => (.error e, s)
  | .ok dst0 =>
  match s.memory.memGet (computeOp0Addr i s) none with
  | .error e => (.error e, s)
  | .ok op0Fetch =>
  match computeOp1Addr i s op0Fetch with
  | .error e => (.error e, s)
  | .ok op1Addr =>
  match s.memory.memGet op1Addr none with
  | .error e => (.error e, s)
  | .ok op1Fetch =>
  match autoDeduceStep arules vrules op0Fetch (computeOp0Addr i s) s with
  | (op0A, sA) =>
  match autoDeduceStep arules vrules op1Fetch op1Addr sA with
  | (op1A, s1) =>
  (.ok (dst0, op0A, op1A, computeDstAddr i s, computeOp0Addr i s, op1Addr), s1)

/-- Second phase of `VirtualMachine::compute_operands` (pure in the
state): opcode-based deduction of `op0`/`op1`, the force reads from
memory — note the Rust code force-reads a still-unknown `op1` from
`op0_addr`, not `op1_addr` — computation of `res`, deduction and force
read of `dst`.  Returns `(dst, res, op0, op1)`. -/
def coValues (i : Instruction) (s1 : VMState)
    (dst0 op0A op1A : Option MaybeRelocatable)
    (dstAddr op0Addr _op1Addr : MaybeRelocatable) :
    Except VMErr (MaybeRelocatable × Option MaybeRelocatable ×
      MaybeRelocatable × MaybeRelocatable) :=
  match (if op0A.isNone then deduceOp0 s1.prime s1.pc i dst0 op1A
         else .ok (op0A, none)) with
  | .error e => .error e
  | .ok (op0D, dRes0) =>
  match (if op1A.isNone then deduceOp1 s1.prime i dst0 op0D
         else .ok (op1A, none)) with
  | .error e => .error e
  | .ok (op1D, dRes1) =>
  match (match op0D with
         | some v => Except.ok v
         | none => s1.memory.memIndex op0Addr) with
  | .error e => .error e
  | .ok op0F =>
  match (match op1D with
         | some v => Except.ok v
         | none => s1.memory.memIndex op0Addr) with
  | .error e => .error e
  | .ok op1F =>
  match (if (if dRes0.isNone then dRes1 else dRes0).isNone then
           computeRes s1.prime i op0F op1F
         else .ok (if dRes0.isNone then dRes1 else dRes0)) with
  | .error e => .error e
  | .ok resF =>
  match (match (if dst0.isNone then
                  (match i.opcode, resF with
                   | .ASSERT_EQ, some r => some r
                   | .CALL, _ => some s1.fp
                   | _, _ => none)
                else dst0) with
         | some v => Except.ok v
         | none => s1.memory.memIndex dstAddr) with
  | .error e => .error e
  | .ok dstF => .ok (dstF, resF, op0F, op1F)

/-- One conditional operand write-back
(`if should_update_x { self.validated_memory.index_set(..) }`). -/
def writeIf (vrules : VRules) (cond : Bool) (addr value : MaybeRelocatable)
    (s : VMState) : VMState :=
  if cond then validatedIndexSet vrules s addr value else s

/-- Third phase of `VirtualMachine::compute_operands`: the write-back of
every operand that was absent from memory (`should_update_*`). -/
def coWrite (vrules : VRules) (dst0 op0A op1A : Option MaybeRelocatable)
    (dstAddr op0Addr op1Addr dstF op0F op1F : MaybeRelocatable) (s1 : VMState) :
    VMState :=
  writeIf vrules op1A.isNone op1Addr op1F
    (writeIf vrules op0A.isNone op0Addr op0F
      (writeIf vrules dst0.isNone dstAddr dstF s1))

/-- `VirtualMachine::compute_operands`: the three phases above in
sequence. -/
def computeOperands (arules : ARules) (vrules : VRules) (i : Instruction) (s : VMState) :
    Except VMErr (Operands × List MaybeRelocatable) × VMState :=
  match coFetch arules vrules i s with
  | (.error e, s') => (.error e, s')
  | (.ok (dst0, op0A, op1A, dstAddr, op0Addr, op1Addr), s1) =>
    match coValues i s1 dst0 op0A op1A dstAddr op0Addr op1Addr with
    | .error e => (.error e, s1)
    | .ok (dstF, resF, op0F, op1F) =>
      (.ok (⟨dstF, resF, op0F, op1F⟩, [dstAddr, op0Addr, op1Addr]),
       coWrite vrules dst0 op0A op1A dstAddr op0Addr op1Addr dstF op0F op1F s1)

/-- `VirtualMachine::opcode_assertions` (pure in the state). -/
def opcodeAssertions (i : Instruction) (ops : Operands) (s : VMState) :
    Except VMErr Unit :=
  match i.opcode with
  | .ASSERT_EQ =>
    match ops.res with
    | some res =>
      if ops.dst ≠ res ∧ ¬ checkEqMR ops.dst res then
        .error (.assertEqFailed ops.dst res)
      else .ok ()
    | none => .error .assertEqWithUnconstrained
  | .CALL =>
    let returnPc := s.pc.addInt i.instSize
    if ops.op0 ≠ returnPc ∧ ¬ checkEqMR ops.op0 returnPc then
      .error (.failedToWriteReturnPc ops.op0 returnPc)
    else
      let returnFp := s.fp
      if ops.dst ≠ returnFp ∧ ¬ checkEqMR ops.dst returnFp then
        .error (.failedToWriteReturnFp ops.dst returnFp)
      else .ok ()
  | .RET => .ok ()
  | .NOP => .ok ()

/-- The fp block of `VirtualMachine::update_registers`: compute
`new_fp_value` and write it when present. -/
def applyFpUpdate (i : Instruction) (ops : Operands) (s0 : VMState) : VMState :=
  match (match i.fpUpdate with
         | .AP_PLUS2 => some (s0.ap.addInt 2)
         | .DST => some ops.dst
         | .REGULAR => none) with
  | some v => { s0 with fp := v }
  | none => s0

/-- The `new_ap_value` computation of `update_registers`. -/
def computeNewAp (i : Instruction) (ops : Operands) (s : VMState) :
    Except VMErr (Option MaybeRelocatable) :=
  match i.apUpdate with
  | .ADD =>
    (match ops.res with
     | some res =>
       (match s.ap.add (res.mod s.prime) with
        | .error e => Except.error e
        | .ok v => Except.ok (some v))
     | none => Except.error VMErr.addWithUnconstrained)
  | .ADD1 => .ok (some (s.ap.addInt 1))
  | .ADD2 => .ok (some (s.ap.addInt 2))
  | .REGULAR => .ok none

/-- The `new_pc_value` computation of `update_registers` (done last so the
`pc` is still correct when one of the earlier updates fails). -/
def computeNewPc (i : Instruction) (ops : Operands) (s : VMState) :
    Except VMErr (Option MaybeRelocatable) :=
  match i.pcUpdate with
  | .REGULAR => .ok (some (s.pc.addInt i.instSize))
  | .JUMP =>
    (match ops.res with
     | some res => Except.ok (some res)
     | none => Except.error VMErr.jumpWithUnconstrained)
  | .JUMP_REL =>
    (match ops.res with
     | some (.int res) => Except.ok (some (s.pc.addInt res))
     | some (.rel _) => Except.error VMErr.pureValue
     | none => Except.error VMErr.jumpRelWithUnconstrained)
  | .JNZ =>
    (match isZeroMR ops.dst with
     | .error e => Except.error e
     | .ok true => Except.ok (some (s.pc.addInt i.instSize))
     | .ok false =>
       (match s.pc.add ops.op1 with
        | .error e => Except.error e
        | .ok v => Except.ok (some v)))

/-- The pc block of `update_registers`: compute `new_pc_value` and write
`pc` (reduced mod the prime even for `REGULAR`). -/
def applyPcUpdate (i : Instruction) (ops : Operands) (s2 : VMState) :
    Except VMErr Unit × VMState :=
  match computeNewPc i ops s2 with
  | .error e => (.error e, s2)
  | .ok newPcValue =>
    (.ok (), { s2 with pc := (match newPcValue with
                              | some v => v.mod s2.prime
                              | none => s2.pc.mod s2.prime) })

/-- The ap and pc blocks of `update_registers`: on an ap error the fp
already written stays written. -/
def applyApUpdate (i : Instruction) (ops : Operands) (s : VMState) :
    Except VMErr Unit × VMState :=
  match computeNewAp i ops s with
  | .error e => (.error e, s)
  | .ok newApValue =>
    applyPcUpdate i ops { s with ap := (match newApValue with
                                        | some v => v.mod s.prime
                                        | none => s.ap.mod s.prime) }

/-- `VirtualMachine::update_registers`: fp first, then ap, then pc; on an
error the registers already written stay written (the Rust comment only
promises a correct `pc` in case of an exception). -/
def updateRegisters (i : Instruction) (ops : Operands) (s0 : VMState) :
    Except VMErr Unit × VMState :=
  applyApUpdate i ops (applyFpUpdate i ops s0)

/-- `VirtualMachine::run_instruction`: operands, opcode assertions, trace
append (snapshot before the update), accessed addresses, register update,
step increment. -/
def runInstruction (arules : ARules) (vrules : VRules) (i : Instruction) (s : VMState) :
    Except VMErr Unit × VMState :=
  match computeOperands arules vrules i s with
  | (.error e, s') => (.error e, s')
  | (.ok (ops, operandsMemAddresses), s1) =>
    match opcodeAssertions i ops s1 with
    | .error e => (.error e, s1)
    | .ok _ =>
      let s2 := { s1 with trace := s1.trace ++ [TraceEntry.mk s1.pc s1.ap s1.fp] }
      let s3 := { s2 with
        accessedAddresses :=
          setInsert (operandsMemAddresses.foldl setInsert s2.accessedAddresses) s2.pc }
      match updateRegisters i ops s3 with
      | (.error e, s4) => (.error e, s4)
      | (.ok _, s4) => (.ok (), { s4 with currentStep := s4.currentStep + 1 })

/-- `RunContext::get_instruction_encoding`: the value at `pc` (must be an
`Int`, and present — the Rust code `unwrap`s) and the optional value at
`pc + 1`. -/
def getInstructionEncoding (s : VMState) : Except VMErr (Int × Option Int) :=
  match s.memory.memIndex s.pc with
  | .error e => .error e
  | .ok (.rel _) => .error .panicInstructionNotInt
  | .ok (.int enc) =>
    let immAddr := (s.pc.addInt 1).mod s.prime
    match s.memory.memGet immAddr none with
    | .error e => .error e
    | .ok optionalImm =>
      .ok (enc, match optionalImm with
                | some (.int v) => some v
                | some (.rel _) => none
                | none => none)

/-- `VirtualMachine::decode_current_instruction`. -/
def decodeCurrentInstruction (s : VMState) : Except VMErr Instruction :=
  match getInstructionEncoding s with
  | .error e => .error e
  | .ok (enc, imm) => decodeInstruction enc imm

/-- The hint loop at the start of `VirtualMachine::step`: run each hint in
order; a failing hint aborts, and after each hint the
`skip_instruction_execution` flag is checked (returning `true` means the
instruction is skipped). -/
def runHints : List HintOutcome → VMState → Except VMErr Bool × VMState
  | [], s => (.ok false, s)
  | h :: t, s =>
    match h with
    | .fail => (.error .hintExecute, s)
    | .setSkip =>
      let s' := { s with skipInstructionExecution := true }
      if s'.skipInstructionExecution then (.ok true, s') else runHints t s'
    | .noop =>
      if s.skipInstructionExecution then (.ok true, s) else runHints t s

/-- The decode-and-run tail of `VirtualMachine::step`. -/
def decodeAndRun (arules : ARules) (vrules : VRules) (s : VMState) :
    Except VMErr Unit × VMState :=
  match decodeCurrentInstruction s with
  | .error e => (.error e, s)
  | .ok i => runInstruction arules vrules i s

/-- `VirtualMachine::step`: clear the skip flag, run the hints registered
at `pc` (if any), then decode and run the instruction unless skipped. -/
def step (arules : ARules) (vrules : VRules) (s0 : VMState) :
    Except VMErr Unit × VMState :=
  let s := { s0 with skipInstructionExecution := false }
  match assocGet s.hints s.pc with
  | some hs =>
    match runHints hs s with
    | (.error e, s') => (.error e, s')
    | (.ok true, s') => (.ok (), s')
    | (.ok false, s') => decodeAndRun arules vrules s'
  | none => decodeAndRun arules vrules s

/-- The `accessed_addresses` loop in `VirtualMachine::new`: one insertion
per program data cell, at `program_base + i`. -/
def buildAccessed (programBase : MaybeRelocatable) (dataLen : Nat) :
    List MaybeRelocatable :=
  (List.range dataLen).foldl (fun acc (i : Nat) => setInsert acc (programBase.addInt i)) []

/-- `VirtualMachine::new`: the initial machine state.  `hints` stands for
the table built by `load_hints`; trace and step counter start empty. -/
def vmNew (prime : Int) (pc ap fp : MaybeRelocatable) (memory : MemoryDict)
    (hints : List (MaybeRelocatable × List HintOutcome))
    (programBase : MaybeRelocatable) (programDataLen : Nat) : VMState :=
  { prime := prime, pc := pc, ap := ap, fp := fp, memory := memory,
    validatedAddresses := [],
    accessedAddresses := buildAccessed programBase programDataLen,
    trace := [], currentStep := 0, skipInstructionExecution := false,
    hints := hints }

/-- `RunResources` from `src/cairo/lang/vm/utils.rs`. -/
structure RunResources where
  nSteps : Option Int
deriving DecidableEq, Repr

/-- `RunResources::consumed`. -/
def RunResources.consumed (rr : RunResources) : Bool :=
  match rr.nSteps with
  | some n => n ≤ 0
  | none => false

/-- `RunResources::consume_step`. -/
def RunResources.consumeStep (rr : RunResources) : RunResources :=
  match rr.nSteps with
  | some n => ⟨some (n - 1)⟩
  | none => ⟨none⟩

/-- Errors of `CairoRunner` relevant here.  Both failure sites of
`run_until_pc` / `vm_step` return the same value
`Error::VmError(VmException {})` in the Rust code (the `vmException`
constructor); a VM error is wrapped by `Error::VirtualMachineError`. -/
inductive RunnerErr where
  | vmException
  | virtualMachine (e : VMErr)
deriving DecidableEq, Repr

/-- The runner state used by `run_until_pc`: the `vm` and its `final_pc`
(assumed initialised). -/
structure RunnerState where
  vm : VMState
  finalPc : RelocatableValue
deriving DecidableEq, Repr

/-- `CairoRunner::vm_step`: refuse to step when `pc == final_pc`,
otherwise one `VirtualMachine::step`. -/
def vmStep (arules : ARules) (vrules : VRules) (r : RunnerState) :
    Except RunnerErr Unit × RunnerState :=
  if r.vm.pc.eqRel r.finalPc then (.error .vmException, r)
  else
    match step arules vrules r.vm with
    | (.error e, v') => (.error (.virtualMachine e), { r with vm := v' })
    | (.ok _, v') => (.ok (), { r with vm := v' })

/-- `j` successful iterations of `vm_step` (an error aborts). -/
def iterVmStep (arules : ARules) (vrules : VRules) :
    Nat → RunnerState → Except RunnerErr RunnerState
  | 0, r => .ok r
  | j + 1, r =>
    match vmStep arules vrules r with
    | (.ok _, r') => iterVmStep arules vrules j r'
    | (.error e, _) => .error e

/-- The check after the `run_until_pc` loop: error iff `pc` never reached
the target address. -/
def runUntilPcFinish (addr : MaybeRelocatable) (r : RunnerState) :
    Except RunnerErr Unit × RunnerState :=
  if r.vm.pc ≠ addr then (.error .vmException, r) else (.ok (), r)

/-- `CairoRunner::run_until_pc`, with an explicit fuel bounding the number
of loop iterations of the model (`none` = the bound was hit while the Rust
loop would continue). -/
def runUntilPc (addr : MaybeRelocatable) (arules : ARules) (vrules : VRules) :
    Nat → RunResources → RunnerState → Option (Except RunnerErr Unit × RunnerState)
  | fuel, rr, r =>
    if r.vm.pc ≠ addr ∧ ¬ rr.consumed then
      match fuel with
      | 0 => none
      | f + 1 =>
        match vmStep arules vrules r with
        | (.error e, r') => some (.error e, r')
        | (.ok _, r') => runUntilPc addr arules vrules f rr.consumeStep r'
    else some (runUntilPcFinish addr r)

/-- All state components except the memory and the validated-address
cache (the only parts `compute_operands` may change). -/
def nonMemView (s : VMState) :
    Int × MaybeRelocatable × MaybeRelocatable × MaybeRelocatable ×
    List MaybeRelocatable × List TraceEntry × Int × Bool ×
    List (MaybeRelocatable × List HintOutcome) :=
  (s.prime, s.pc, s.ap, s.fp, s.accessedAddresses, s.trace, s.currentStep,
   s.skipInstructionExecution, s.hints)

/-- All state components except the three registers (the only parts
`update_registers` may change). -/
def nonRegView (s : VMState) :
    Int × MemoryDict × List RelocatableValue × List MaybeRelocatable ×
    List TraceEntry × Int × Bool × List (MaybeRelocatable × List HintOutcome) :=
  (s.prime, s.memory, s.validatedAddresses, s.accessedAddresses, s.trace,
   s.currentStep, s.skipInstructionExecution, s.hints)

/-- Whether `run_instruction` fails before the register update, i.e. in
`compute_operands` or in the opcode assertions. -/
def preUpdateFailed (arules : ARules) (vrules : VRules) (i : Instruction) (s : VMState) :
    Bool :=
  match computeOperands arules vrules i s with
  | (.error _, _) => true
  | (.ok (ops, _), s1) =>
    match opcodeAssertions i ops s1 with
    | .error _ => true
    | .ok _ => false

/-- All state components except the `skip_instruction_execution` flag
(the only part the hint loop may change). -/
def nonSkipView (s : VMState) :
    Int × MaybeRelocatable × MaybeRelocatable × MaybeRelocatable ×
    MemoryDict × List RelocatableValue × List MaybeRelocatable ×
    List TraceEntry × Int × List (MaybeRelocatable × List HintOutcome) :=
  (s.prime, s.pc, s.ap, s.fp, s.memory, s.validatedAddresses,
   s.accessedAddresses, s.trace, s.currentStep, s.hints)

/-- An empty auto-deduction table (no builtin runners registered). -/
def ARnone : ARules := fun _ => none

/-- An empty validation-rule table (no builtin runners registered). -/
def VRnone : VRules := fun _ => none

/-- Concrete NOP-with-unknown-op1 instruction used to exercise the force
read of `op1` (`op1_src = AP`, `off2 = 2`). -/
def iC2 : Instruction :=
  ⟨0, 1, 2, none, .AP, .AP, .AP, .OP1, .REGULAR, .REGULAR, .REGULAR, .NOP⟩

/-- Wire encoding of `iC2` (flag bit 4 = OP1_AP; biased offsets). -/
def encC2 : Int := 2 ^ 4 * 2 ^ 48 + 32770 * 2 ^ 32 + 32769 * 2 ^ 16 + 32768

/-- State for the `iC2` run: `dst_addr = (1,0) ↦ 11`,
`op0_addr = (1,1) ↦ 7`, and `op1_addr = (1,2)` unassigned. -/
def sC2 : VMState :=
  { prime := 101, pc := .rel ⟨0, 0⟩, ap := .rel ⟨1, 0⟩, fp := .rel ⟨1, 0⟩,
    memory := ⟨[(.rel ⟨1, 0⟩, .int 11), (.rel ⟨1, 1⟩, .int 7)], false, []⟩,
    validatedAddresses := [], accessedAddresses := [], trace := [],
    currentStep := 0, skipInstructionExecution := false, hints := [] }

/-- Concrete RET instruction with `pc_update = JNZ` (hence
`res = UNCONSTRAINED`), `ap_update = ADD` and `fp_update = DST`. -/
def iC3 : Instruction :=
  ⟨0, 1, 0, none, .AP, .AP, .FP, .UNCONSTRAINED, .JNZ, .ADD, .DST, .RET⟩

/-- Wire encoding of `iC3` (flag bits 3 = OP1_FP, 9 = PC_JNZ,
10 = AP_ADD, 13 = OPCODE_RET). -/
def encC3 : Int :=
  (2 ^ 3 + 2 ^ 9 + 2 ^ 10 + 2 ^ 13) * 2 ^ 48 + 32768 * 2 ^ 32 + 32769 * 2 ^ 16 + 32768

/-- State for the `iC3` run: all three operands present in memory, with
`dst = 99` different from `fp = (1,10)`. -/
def sC3 : VMState :=
  { prime := 101, pc := .rel ⟨0, 0⟩, ap := .rel ⟨1, 0⟩, fp := .rel ⟨1, 10⟩,
    memory := ⟨[(.rel ⟨1, 0⟩, .int 99), (.rel ⟨1, 1⟩, .int 5),
               (.rel ⟨1, 10⟩, .int 1)], false, []⟩,
    validatedAddresses := [], accessedAddresses := [], trace := [],
    currentStep := 0, skipInstructionExecution := false, hints := [] }

/-- Concrete failing ASSERT_EQ instruction (`res = OP1`). -/
def iC3w : Instruction :=
  ⟨0, 1, 2, none, .AP, .AP, .AP, .OP1, .REGULAR, .REGULAR, .REGULAR, .ASSERT_EQ⟩

/-- State for the `iC3w` run: `dst = 3`, `op0 = 5`, `op1 = 9`, so the
assertion `dst == res` fails before the register update. -/
def sC3w : VMState :=
  { prime := 101, pc := .rel ⟨0, 0⟩, ap := .rel ⟨1, 0⟩, fp := .rel ⟨1, 0⟩,
    memory := ⟨[(.rel ⟨1, 0⟩, .int 3), (.rel ⟨1, 1⟩, .int 5),
               (.rel ⟨1, 2⟩, .int 9)], false, []⟩,
    validatedAddresses := [], accessedAddresses := [], trace := [],
    currentStep := 0, skipInstructionExecution := false, hints := [] }

/-- Wire encoding of an all-flags-zero instruction
(NOP, `op1_src = OP0`, offsets `0, 1, 0`). -/
def encNop : Int := 32768 * 2 ^ 32 + 32769 * 2 ^ 16 + 32768

/-- A machine state on which one full step succeeds: `pc = (0,0)` holds
`encNop`, `op0 = [(1,1)] = (1,2)`, `op1 = [(1,2)] = 9`, `dst = [(1,0)] = 3`. -/
def sNop : VMState :=
  { prime := 101, pc := .rel ⟨0, 0⟩, ap := .rel ⟨1, 0⟩, fp := .rel ⟨1, 0⟩,
    memory := ⟨[(.rel ⟨0, 0⟩, .int encNop), (.rel ⟨1, 0⟩, .int 3),
               (.rel ⟨1, 1⟩, .rel ⟨1, 2⟩), (.rel ⟨1, 2⟩, .int 9)], false, []⟩,
    validatedAddresses := [], accessedAddresses := [], trace := [],
    currentStep := 0, skipInstructionExecution := false, hints := [] }

/-- Runner state over `sNop` with a distant `final_pc`. -/
def rNop : RunnerState := ⟨sNop, ⟨7, 7⟩⟩

/-- A frozen one-cell memory state (for the write-once claims). -/
def sFrozen : VMState :=
  { prime := 101, pc := .rel ⟨0, 0⟩, ap := .rel ⟨1, 0⟩, fp := .rel ⟨1, 0⟩,
    memory := ⟨[(.rel ⟨0, 0⟩, .int 1)], true, []⟩,
    validatedAddresses := [], accessedAddresses := [], trace := [],
    currentStep := 0, skipInstructionExecution := false, hints := [] }

theorem mem_setInsert {α : Type} [DecidableEq α] (l : List α) (a b : α) :
    b ∈ setInsert l a ↔ b ∈ l ∨ b = a := by
  unfold setInsert
  split
  · constructor
    · exact Or.inl
    · rintro (h | rfl) <;> assumption
  · simp [or_comm]

theorem buildAccessed_succ (base : MaybeRelocatable) (n : Nat) :
    buildAccessed base (n + 1) = setInsert (buildAccessed base n) (base.addInt n) := by
  unfold buildAccessed
  rw [List.range_succ, List.foldl_append]
  rfl

theorem mem_buildAccessed (base : MaybeRelocatable) (n : Nat) (a : MaybeRelocatable) :
    a ∈ buildAccessed base n ↔ ∃ i < n, a = base.addInt i := by
  induction n with
  | zero =>
    constructor
    · intro h; cases h
    · rintro ⟨i, hi, _⟩; omega
  | succ k ih =>
    rw [buildAccessed_succ, mem_setInsert, ih]
    constructor
    · rintro (⟨i, hi, rfl⟩ | rfl)
      · exact ⟨i, Nat.lt_succ_of_lt hi, rfl⟩
      · exact ⟨k, Nat.lt_succ_self k, rfl⟩
    · rintro ⟨i, hi, rfl⟩
      rcases Nat.lt_succ_iff_lt_or_eq.mp hi with h | rfl
      · exact Or.inl ⟨i, h, rfl⟩
      · exact Or.inr rfl

@[simp]
theorem nonMemView_runValRules (rules : List VRule) (a : RelocatableValue) (s : VMState) :
    nonMemView (runValRules rules a s) = nonMemView s := by
  induction rules generalizing s with
  | nil => rfl
  | cons r t ih =>
    unfold runValRules
    rw [ih]
    rfl

@[simp]
theorem nonMemView_validateMemoryCell (vrules : VRules) (s : VMState)
    (addr value : MaybeRelocatable) :
    nonMemView (validateMemoryCell vrules s addr value) = nonMemView s := by
  unfold validateMemoryCell
  split
  · rfl
  · split
    · rfl
    · split
      · simp
      · rfl

@[simp]
theorem nonMemView_validatedIndexSet (vrules : VRules) (s : VMState)
    (addr value : MaybeRelocatable) :
    nonMemView (validatedIndexSet vrules s addr value) = nonMemView s := by
  unfold validatedIndexSet
  rw [nonMemView_validateMemoryCell]
  rfl

@[simp]
theorem nonMemView_runAutoRules (vrules : VRules) (rules : List ARule)
    (a : RelocatableValue) (s : VMState) :
    nonMemView (runAutoRules vrules rules a s) = nonMemView s := by
  induction rules generalizing s with
  | nil => rfl
  | cons r t ih =>
    unfold runAutoRules
    split
    · rw [ih, nonMemView_validatedIndexSet]
    · exact ih s

@[simp]
theorem nonMemView_deduceMemoryCell (arules : ARules) (vrules : VRules)
    (addr : MaybeRelocatable) (s : VMState) :
    nonMemView (deduceMemoryCell arules vrules addr s).2 = nonMemView s := by
  unfold deduceMemoryCell
  split
  · rfl
  · split
    · simp
    · rfl

@[simp]
theorem nonMemView_autoDeduceStep (arules : ARules) (vrules : VRules)
    (fetch : Option MaybeRelocatable) (addr : MaybeRelocatable) (s : VMState) :
    nonMemView (autoDeduceStep arules vrules fetch addr s).2 = nonMemView s := by
  unfold autoDeduceStep
  split <;> simp

@[simp]
theorem nonMemView_writeIf (vrules : VRules) (cond : Bool)
    (addr value : MaybeRelocatable) (s : VMState) :
    nonMemView (writeIf vrules cond addr value s) = nonMemView s := by
  unfold writeIf
  split <;> simp

@[simp]
theorem nonMemView_coWrite (vrules : VRules) (dst0 op0A op1A : Option MaybeRelocatable)
    (dstAddr op0Addr op1Addr dstF op0F op1F : MaybeRelocatable) (s1 : VMState) :
    nonMemView (coWrite vrules dst0 op0A op1A dstAddr op0Addr op1Addr dstF op0F op1F s1) =
      nonMemView s1 := by
  unfold coWrite
  simp

@[simp]
theorem nonMemView_coFetch (arules : ARules) (vrules : VRules)
    (i : Instruction) (s : VMState) :
    nonMemView (coFetch arules vrules i s).2 = nonMemView s := by
  unfold coFetch
  cases hg1 : s.memory.memGet (computeDstAddr i s) none with
  | error e => rfl
  | ok dst0 =>
  dsimp only
  cases hg2 : s.memory.memGet (computeOp0Addr i s) none with
  | error e => rfl
  | ok op0Fetch =>
  dsimp only
  cases hg3 : computeOp1Addr i s op0Fetch with
  | error e => rfl
  | ok op1Addr =>
  dsimp only
  cases hg4 : s.memory.memGet op1Addr none with
  | error e => rfl
  | ok op1Fetch =>
  simp

theorem nonMemView_computeOperands (arules : ARules) (vrules : VRules)
    (i : Instruction) (s : VMState) :
    nonMemView (computeOperands arules vrules i s).2 = nonMemView s := by
  unfold computeOperands
  cases hf : coFetch arules vrules i s with
  | mk r1 s1 =>
    have h1 : nonMemView s1 = nonMemView s := by
      have h := nonMemView_coFetch arules vrules i s
      rwa [hf] at h
    cases r1 with
    | error e => simpa using h1
    | ok v =>
      obtain ⟨dst0, op0A, op1A, dstAddr, op0Addr, op1Addr⟩ := v
      cases hv : coValues i s1 dst0 op0A op1A dstAddr op0Addr op1Addr with
      | error e => simp [hv, h1]
      | ok w =>
        obtain ⟨dstF, resF, op0F, op1F⟩ := w
        simp [hv, h1]

theorem nonMemView_fields {s s' : VMState} (h : nonMemView s' = nonMemView s) :
    s'.prime = s.prime ∧ s'.pc = s.pc ∧ s'.ap = s.ap ∧ s'.fp = s.fp ∧
    s'.accessedAddresses = s.accessedAddresses ∧ s'.trace = s.trace ∧
    s'.currentStep = s.currentStep ∧
    s'.skipInstructionExecution = s.skipInstructionExecution ∧ s'.hints = s.hints := by
  simp only [nonMemView, Prod.mk.injEq] at h
  exact h

theorem nonRegView_fields {s s' : VMState} (h : nonRegView s' = nonRegView s) :
    s'.prime = s.prime ∧ s'.memory = s.memory ∧
    s'.validatedAddresses = s.validatedAddresses ∧
    s'.accessedAddresses = s.accessedAddresses ∧ s'.trace = s.trace ∧
    s'.currentStep = s.currentStep ∧
    s'.skipInstructionExecution = s.skipInstructionExecution ∧ s'.hints = s.hints := by
  simp only [nonRegView, Prod.mk.injEq] at h
  exact h

theorem applyFpUpdate_pc (i : Instruction) (ops : Operands) (s : VMState) :
    (applyFpUpdate i ops s).pc = s.pc := by
  unfold applyFpUpdate
  repeat' split <;> rfl

theorem nonRegView_applyFpUpdate (i : Instruction) (ops : Operands) (s : VMState) :
    nonRegView (applyFpUpdate i ops s) = nonRegView s := by
  unfold applyFpUpdate
  repeat' split <;> rfl

theorem nonRegView_applyPcUpdate (i : Instruction) (ops : Operands) (s : VMState) :
    nonRegView (applyPcUpdate i ops s).2 = nonRegView s := by
  unfold applyPcUpdate
  repeat' split <;> rfl

theorem nonRegView_applyApUpdate (i : Instruction) (ops : Operands) (s : VMState) :
    nonRegView (applyApUpdate i ops s).2 = nonRegView s := by
  unfold applyApUpdate
  cases h : computeNewAp i ops s with
  | error e => rfl
  | ok nap =>
    dsimp only
    rw [nonRegView_applyPcUpdate]
    rfl

theorem nonRegView_updateRegisters (i : Instruction) (ops : Operands) (s : VMState) :
    nonRegView (updateRegisters i ops s).2 = nonRegView s := by
  unfold updateRegisters
  rw [nonRegView_applyApUpdate, nonRegView_applyFpUpdate]

theorem applyPcUpdate_error_pc (i : Instruction) (ops : Operands) (s : VMState)
    (e : VMErr) (s' : VMState) (h : applyPcUpdate i ops s = (.error e, s')) :
    s'.pc = s.pc := by
  unfold applyPcUpdate at h
  split at h
  · simp only [Prod.mk.injEq] at h
    obtain ⟨-, rfl⟩ := h
    rfl
  · simp at h

theorem applyApUpdate_error_pc (i : Instruction) (ops : Operands) (s : VMState)
    (e : VMErr) (s' : VMState) (h : applyApUpdate i ops s = (.error e, s')) :
    s'.pc = s.pc := by
  unfold applyApUpdate at h
  split at h
  · simp only [Prod.mk.injEq] at h
    obtain ⟨-, rfl⟩ := h
    rfl
  · have h2 := applyPcUpdate_error_pc _ _ _ _ _ h
    exact h2

theorem updateRegisters_error_pc (i : Instruction) (ops : Operands) (s : VMState)
    (e : VMErr) (s' : VMState) (h : updateRegisters i ops s = (.error e, s')) :
    s'.pc = s.pc := by
  unfold updateRegisters at h
  rw [← applyFpUpdate_pc i ops s]
  exact applyApUpdate_error_pc _ _ _ _ _ h

theorem computeOperands_nonMemView {arules : ARules} {vrules : VRules}
    {i : Instruction} {s : VMState} {r} {s1 : VMState}
    (hc : computeOperands arules vrules i s = (r, s1)) :
    nonMemView s1 = nonMemView s := by
  have h0 := nonMemView_computeOperands arules vrules i s
  rw [hc] at h0
  exact h0

theorem updateRegisters_nonRegView {i : Instruction} {ops : Operands}
    {s : VMState} {r} {s4 : VMState}
    (hu : updateRegisters i ops s = (r, s4)) :
    nonRegView s4 = nonRegView s := by
  have h0 := nonRegView_updateRegisters i ops s
  rw [hu] at h0
  exact h0

/-- C3 (amended): if `run_instruction` returns an error, `pc` always still
holds its pre-step value (the pc write is performed last); and when the
error was raised before the register update (by `compute_operands` or by
the opcode assertions) `ap` and `fp` are also unchanged.  An error raised
inside the register update itself may leave `fp` (and `ap`) already
updated — see the counterexample. -/
theorem claim_C3_registers_after_error (arules : ARules) (vrules : VRules)
    (i : Instruction) (s : VMState) (e : VMErr) (s' : VMState)
    (h : runInstruction arules vrules i s = (.error e, s')) :
    s'.pc = s.pc ∧
    (preUpdateFailed arules vrules i s = true → s'.ap = s.ap ∧ s'.fp = s.fp) := by
  unfold runInstruction at h
  cases hc : computeOperands arules vrules i s with
  | mk r1 s1 =>
    rw [hc] at h
    obtain ⟨hprime, hpc, hap, hfp, hacc, htr, hcs, hsk, hh⟩ :=
      nonMemView_fields (computeOperands_nonMemView hc)
    cases r1 with
    | error e1 =>
      dsimp only at h
      simp only [Prod.mk.injEq] at h
      obtain ⟨-, rfl⟩ := h
      exact ⟨hpc, fun _ => ⟨hap, hfp⟩⟩
    | ok v =>
      obtain ⟨ops, addrs⟩ := v
      dsimp only at h
      cases ha : opcodeAssertions i ops s1 with
      | error e1 =>
        rw [ha] at h
        dsimp only at h
        simp only [Prod.mk.injEq] at h
        obtain ⟨-, rfl⟩ := h
        exact ⟨hpc, fun _ => ⟨hap, hfp⟩⟩
      | ok u =>
        rw [ha] at h
        dsimp only at h
        have hpre : preUpdateFailed arules vrules i s = false := by
          unfold preUpdateFailed
          rw [hc]
          dsimp only
          rw [ha]
        split at h
        · rename_i e2 s4 hu
          simp only [Prod.mk.injEq] at h
          obtain ⟨-, rfl⟩ := h
          have hpc4 := updateRegisters_error_pc _ _ _ _ _ hu
          constructor
          · exact hpc4.trans hpc
          · intro hcontra
            rw [hpre] at hcontra
            cases hcontra
        · simp at h

theorem runInstruction_ok_effects (arules : ARules) (vrules : VRules)
    (i : Instruction) (s : VMState) (s' : VMState)
    (h : runInstruction arules vrules i s = (.ok (), s')) :
    s'.trace = s.trace ++ [TraceEntry.mk s.pc s.ap s.fp] ∧
    s'.currentStep = s.currentStep + 1 ∧ s'.hints = s.hints ∧
    s'.skipInstructionExecution = s.skipInstructionExecution := by
  unfold runInstruction at h
  cases hc : computeOperands arules vrules i s with
  | mk r1 s1 =>
    rw [hc] at h
    obtain ⟨hprime, hpc, hap, hfp, hacc, htr, hcs, hsk, hh⟩ :=
      nonMemView_fields (computeOperands_nonMemView hc)
    cases r1 with
    | error e1 =>
      dsimp only at h
      simp at h
    | ok v =>
      obtain ⟨ops, addrs⟩ := v
      dsimp only at h
      cases ha : opcodeAssertions i ops s1 with
      | error e1 =>
        rw [ha] at h
        dsimp only at h
        simp at h
      | ok u =>
        rw [ha] at h
        dsimp only at h
        split at h
        · simp at h
        · rename_i u2 s4 hu
          simp only [Prod.mk.injEq] at h
          obtain ⟨-, rfl⟩ := h
          obtain ⟨rprime, rmem, rval, racc, rtr, rcs, rsk, rh⟩ :=
            nonRegView_fields (updateRegisters_nonRegView hu)
          refine ⟨?_, ?_, ?_, ?_⟩
          · show s4.trace = _
            have h1 : s4.trace = s1.trace ++ [TraceEntry.mk s1.pc s1.ap s1.fp] := rtr
            rw [h1, htr, hpc, hap, hfp]
          · show s4.currentStep + 1 = _
            have h1 : s4.currentStep = s1.currentStep := rcs
            rw [h1, hcs]
          · show s4.hints = _
            have h1 : s4.hints = s1.hints := rh
            rw [h1, hh]
          · show s4.skipInstructionExecution = _
            have h1 : s4.skipInstructionExecution = s1.skipInstructionExecution := rsk
            rw [h1, hsk]

theorem nonSkipView_fields {s s' : VMState} (h : nonSkipView s' = nonSkipView s) :
    s'.prime = s.prime ∧ s'.pc = s.pc ∧ s'.ap = s.ap ∧ s'.fp = s.fp ∧
    s'.memory = s.memory ∧ s'.validatedAddresses = s.validatedAddresses ∧
    s'.accessedAddresses = s.accessedAddresses ∧ s'.trace = s.trace ∧
    s'.currentStep = s.currentStep ∧ s'.hints = s.hints := by
  simp only [nonSkipView, Prod.mk.injEq] at h
  exact h

theorem nonSkipView_runHints (hs : List HintOutcome) (s : VMState) :
    nonSkipView (runHints hs s).2 = nonSkipView s := by
  induction hs generalizing s with
  | nil => rfl
  | cons h t ih =>
    cases h with
    | fail => rfl
    | setSkip =>
      unfold runHints
      dsimp only
      split
      · rfl
      · rw [ih]
        rfl
    | noop =>
      unfold runHints
      dsimp only
      split
      · rfl
      · rw [ih]

theorem decodeAndRun_ok_effects (arules : ARules) (vrules : VRules)
    (s s' : VMState) (h : decodeAndRun arules vrules s = (.ok (), s')) :
    s'.trace = s.trace ++ [TraceEntry.mk s.pc s.ap s.fp] ∧
    s'.currentStep = s.currentStep + 1 ∧ s'.hints = s.hints := by
  unfold decodeAndRun at h
  cases hd : decodeCurrentInstruction s with
  | error e =>
    rw [hd] at h
    simp at h
  | ok i =>
    rw [hd] at h
    dsimp only at h
    obtain ⟨ht, hcs, hh, -⟩ := runInstruction_ok_effects _ _ _ _ _ h
    exact ⟨ht, hcs, hh⟩

theorem step_ok_cases (arules : ARules) (vrules : VRules) (s s' : VMState)
    (h : step arules vrules s = (.ok (), s')) :
    ((s'.trace = s.trace ∧ s'.currentStep = s.currentStep) ∨
     (s'.trace = s.trace ++ [TraceEntry.mk s.pc s.ap s.fp] ∧
      s'.currentStep = s.currentStep + 1)) ∧ s'.hints = s.hints := by
  unfold step at h
  dsimp only at h
  cases hl : assocGet s.hints s.pc with
  | none =>
    rw [hl] at h
    dsimp only at h
    obtain ⟨ht, hcs, hh⟩ := decodeAndRun_ok_effects _ _ _ _ h
    exact ⟨Or.inr ⟨ht, hcs⟩, hh⟩
  | some hsList =>
    rw [hl] at h
    dsimp only at h
    cases hr : runHints hsList { s with skipInstructionExecution := false } with
    | mk rb s1 =>
      rw [hr] at h
      have hns := nonSkipView_runHints hsList { s with skipInstructionExecution := false }
      rw [hr] at hns
      obtain ⟨nprime, npc, nap, nfp, nmem, nval, nacc, ntr, ncs, nh⟩ :=
        nonSkipView_fields hns
      cases rb with
      | error e =>
        dsimp only at h
        simp at h
      | ok b =>
        cases b with
        | true =>
          dsimp only at h
          simp only [Prod.mk.injEq] at h
          obtain ⟨-, rfl⟩ := h
          exact ⟨Or.inl ⟨ntr, ncs⟩, nh⟩
        | false =>
          dsimp only at h
          obtain ⟨ht, hcs, hh⟩ := decodeAndRun_ok_effects _ _ _ _ h
          refine ⟨Or.inr ⟨?_, ?_⟩, ?_⟩
          · rw [ht, ntr, npc, nap, nfp]
          · rw [hcs, ncs]
          · rw [hh, nh]

theorem step_ok_no_hints (arules : ARules) (vrules : VRules) (s s' : VMState)
    (hh : s.hints = []) (h : step arules vrules s = (.ok (), s')) :
    s'.currentStep = s.currentStep + 1 ∧ s'.hints = [] := by
  unfold step at h
  dsimp only at h
  rw [hh] at h
  dsimp only [assocGet] at h
  obtain ⟨-, hcs, hhints⟩ := decodeAndRun_ok_effects _ _ _ _ h
  refine ⟨hcs, ?_⟩
  rw [hhints]

theorem vmStep_ok_no_hints (arules : ARules) (vrules : VRules)
    (r r' : RunnerState) (hh : r.vm.hints = [])
    (h : vmStep arules vrules r = (.ok (), r')) :
    r'.vm.currentStep = r.vm.currentStep + 1 ∧ r'.vm.hints = [] := by
  unfold vmStep at h
  split at h
  · simp at h
  · cases hs : step arules vrules r.vm with
    | mk rs v' =>
      rw [hs] at h
      cases rs with
      | error e =>
        dsimp only at h
        simp at h
      | ok u =>
        cases u
        dsimp only at h
        simp only [Prod.mk.injEq] at h
        obtain ⟨-, rfl⟩ := h
        obtain ⟨hcs, hhints⟩ := step_ok_no_hints _ _ _ _ hh hs
        exact ⟨hcs, hhints⟩

theorem iterVmStep_no_hints (arules : ARules) (vrules : VRules) (k : Nat) :
    ∀ (r rk : RunnerState), r.vm.hints = [] →
    iterVmStep arules vrules k r = .ok rk →
    rk.vm.currentStep = r.vm.currentStep + k ∧ rk.vm.hints = [] := by
  induction k with
  | zero =>
    intro r rk hh hi
    simp only [iterVmStep, Except.ok.injEq] at hi
    subst hi
    exact ⟨by omega, hh⟩
  | succ n ih =>
    intro r rk hh hi
    unfold iterVmStep at hi
    cases hs : vmStep arules vrules r with
    | mk rs r1 =>
      rw [hs] at hi
      cases rs with
      | error e =>
        dsimp only at hi
        simp at hi
      | ok u =>
        cases u
        dsimp only at hi
        obtain ⟨hcs, hhints⟩ := vmStep_ok_no_hints _ _ _ _ hh hs
        obtain ⟨hcs2, hh2⟩ := ih r1 rk hhints hi
        refine ⟨?_, hh2⟩
        rw [hcs2, hcs]
        push_cast
        omega

theorem runUntilPc_exhausts (arules : ARules) (vrules : VRules)
    (addr : MaybeRelocatable) (k : Nat) :
    ∀ (r0 rk : RunnerState),
    iterVmStep arules vrules k r0 = .ok rk →
    (∀ (j : Nat) (rj : RunnerState), j < k →
      iterVmStep arules vrules j r0 = .ok rj → rj.vm.pc ≠ addr) →
    rk.vm.pc ≠ addr →
    runUntilPc addr arules vrules k ⟨some (k : Int)⟩ r0
      = some (.error .vmException, rk) := by
  induction k with
  | zero =>
    intro r0 rk hiter hne hk
    simp only [iterVmStep, Except.ok.injEq] at hiter
    subst hiter
    unfold runUntilPc
    rw [if_neg]
    · unfold runUntilPcFinish
      rw [if_pos hk]
    · simp [RunResources.consumed]
  | succ n ih =>
    intro r0 rk hiter hne hk
    unfold iterVmStep at hiter
    cases hs : vmStep arules vrules r0 with
    | mk rs r1 =>
      rw [hs] at hiter
      cases rs with
      | error e =>
        dsimp only at hiter
        simp at hiter
      | ok u =>
        cases u
        dsimp only at hiter
        have hpc0 : r0.vm.pc ≠ addr := hne 0 r0 (Nat.succ_pos n) rfl
        have hcond : r0.vm.pc ≠ addr ∧
            ¬ (⟨some ((n + 1 : Nat) : Int)⟩ : RunResources).consumed = true := by
          refine ⟨hpc0, ?_⟩
          show ¬ (decide (((n + 1 : Nat) : Int) ≤ 0) = true)
          simp only [decide_eq_true_eq]
          push_cast
          omega
        unfold runUntilPc
        rw [if_pos hcond]
        rw [hs]
        dsimp only
        have hrr : (⟨some ((n + 1 : Nat) : Int)⟩ : RunResources).consumeStep
            = ⟨some ((n : Nat) : Int)⟩ := by
          simp only [RunResources.consumeStep]
          congr 2
          push_cast
          omega
        rw [hrr]
        refine ih r1 rk hiter ?_ hk
        intro j rj hj hji
        refine hne (j + 1) rj (by omega) ?_
        unfold iterVmStep
        rw [hs]
        exact hji

/-- C1: the spec claims `insert` fails with `InconsistentMemory` when the
address already holds a different value and with `Frozen` when the memory
is frozen, and never replaces a stored value.  The code's
`MemoryDict::index_set` (and the `ValidatedMemoryDict` wrapper over it) is
an unconditional, infallible `HashMap::insert`: on a frozen memory whose
cell `(0,0)` holds `1` it silently replaces the value by `2`. -/
theorem claim_C1_write_once_violated :
    MemoryDict.indexSet ⟨[(.rel ⟨0, 0⟩, .int 1)], true, []⟩ (.rel ⟨0, 0⟩) (.int 2)
      = ⟨[(.rel ⟨0, 0⟩, .int 2)], true, []⟩ ∧
    (validatedIndexSet VRnone sFrozen (.rel ⟨0, 0⟩) (.int 2)).memory
      = ⟨[(.rel ⟨0, 0⟩, .int 2)], true, []⟩ := by
  exact ⟨rfl, rfl⟩

/-- C2: the spec claims a still-unknown `op1` is force-read from
`op1_addr` (failing with `UnknownMemory` when that address is
unassigned).  The code reads `op0_addr` instead: on a decodable NOP with
`op1_addr = (1,2)` unassigned and `op0_addr = (1,1) ↦ 7`,
`compute_operands` succeeds, returns `op1 = 7` (the value at `op0_addr`)
and writes that value back to `(1,2)`. -/
theorem claim_C2_op1_forced_from_op0_addr :
    decodeInstruction encC2 none = .ok iC2 ∧
    assocGet sC2.memory.data (.rel ⟨1, 2⟩) = none ∧
    (computeOperands ARnone VRnone iC2 sC2).1
      = .ok (⟨.int 11, some (.int 7), .int 7, .int 7⟩,
             [.rel ⟨1, 0⟩, .rel ⟨1, 1⟩, .rel ⟨1, 2⟩]) ∧
    assocGet (computeOperands ARnone VRnone iC2 sC2).2.memory.data (.rel ⟨1, 2⟩)
      = some (.int 7) := by
  exact ⟨rfl, rfl, rfl, rfl⟩

/-- C3 (counterexample): the decodable RET instruction `iC3`
(`pc_update = JNZ`, `ap_update = ADD`, `fp_update = DST`) makes
`run_instruction` return `AddWithUnconstrained`, yet `fp` has already been
rewritten from `(1,10)` to `99` by the fp stage of the register update —
so an error does not leave all registers with their pre-step values. -/
theorem claim_C3_counterexample :
    decodeInstruction encC3 none = .ok iC3 ∧
    (runInstruction ARnone VRnone iC3 sC3).1
      = .error .addWithUnconstrained ∧
    (runInstruction ARnone VRnone iC3 sC3).2.fp ≠ sC3.fp := by
  refine ⟨rfl, rfl, ?_⟩
  decide

/-- Witness for C3 (amended): the failing ASSERT_EQ run `iC3w`/`sC3w`
errors before the register update and indeed leaves all registers
unchanged. -/
theorem claim_C3_registers_after_error_witness :
    sC3w.pc = sC3w.pc ∧
    (preUpdateFailed ARnone VRnone iC3w sC3w = true →
      sC3w.ap = sC3w.ap ∧ sC3w.fp = sC3w.fp) := by
  have h : runInstruction ARnone VRnone iC3w sC3w
      = (.error (.assertEqFailed (.int 3) (.int 9)), sC3w) := rfl
  exact claim_C3_registers_after_error ARnone VRnone iC3w sC3w _ _ h

/-- C4: the spec claims `deduce_op0` for ASSERT_EQ with `res = ADD` and
known `dst`, `op1` returns `op0 = dst − op1 (mod p)` and `res = dst`
without failing, in particular for field-element values.  The `Sub`
impl for `MaybeRelocatable` panics whenever the left-hand side is an
`Int`, so the deduction panics on `dst = 5`, `op1 = 3` (it only works
when `dst` is a relocatable). -/
theorem claim_C4_deduce_op0_add_panics :
    deduceOp0 101 (.rel ⟨0, 0⟩)
      ⟨0, 0, 0, none, .AP, .AP, .AP, .ADD, .REGULAR, .REGULAR, .REGULAR, .ASSERT_EQ⟩
      (some (.int 5)) (some (.int 3)) = .error .panicSubFromInt ∧
    deduceOp0 101 (.rel ⟨0, 0⟩)
      ⟨0, 0, 0, none, .AP, .AP, .AP, .ADD, .REGULAR, .REGULAR, .REGULAR, .ASSERT_EQ⟩
      (some (.rel ⟨2, 7⟩)) (some (.int 3))
      = .ok (some (.rel ⟨2, 4⟩), some (.rel ⟨2, 7⟩)) := by
  exact ⟨rfl, rfl⟩

/-- C5 (counterexample): with the relocation rule `−1 ↦ (−1, 0)` the
recursion of `relocate_value` on `(−1, 0)` produces no result at any
recursion depth — the code diverges on a cyclic rule set instead of
detecting and reporting the cycle, and `relocate_memory` on such a memory
does not return (modelled by `nonTermination`). -/
theorem claim_C5_counterexample :
    (¬ ∃ (n : Nat) (v : MaybeRelocatable),
        relocateValueF n [((-1 : Int), (⟨-1, 0⟩ : RelocatableValue))] (.rel ⟨-1, 0⟩)
          = some v) ∧
    MemoryDict.relocateMemory
        ⟨[(.rel ⟨-1, 0⟩, .int 5)], false, [((-1 : Int), (⟨-1, 0⟩ : RelocatableValue))]⟩
      = .error .nonTermination := by
  have key : ∀ n : Nat,
      relocateValueF n [((-1 : Int), (⟨-1, 0⟩ : RelocatableValue))] (.rel ⟨-1, 0⟩)
        = none := by
    intro n
    induction n with
    | zero => rfl
    | succ k ih =>
      rw [relocateValueF]
      rw [if_neg (by decide)]
      have hget : assocGet [((-1 : Int), (⟨-1, 0⟩ : RelocatableValue))]
          (RelocatableValue.mk (-1) 0).segmentIndex
          = some (⟨-1, 0⟩ : RelocatableValue) := rfl
      rw [hget]
      dsimp only
      rw [ih]
      rfl
  constructor
  · rintro ⟨n, v, h⟩
    rw [key n] at h
    cases h
  · rfl

/-- C5 (amended): `relocate_memory` fails with the frozen-memory error
whenever the memory is frozen before the rules are applied; but rule
cycles are NOT detected: on a temporary segment whose rule chain returns
to itself, `relocate_value` recurses forever (no recursion depth yields a
result). -/
theorem claim_C5_relocate_frozen_no_cycle_detection :
    (∀ m : MemoryDict, m.frozen = true → m.relocateMemory = .error .memoryFrozen) ∧
    (∀ n : Nat,
      relocateValueF n [((-1 : Int), (⟨-1, 0⟩ : RelocatableValue))] (.rel ⟨-1, 0⟩)
        = none) := by
  constructor
  · intro m h
    unfold MemoryDict.relocateMemory
    rw [h]
    rfl
  · intro n
    induction n with
    | zero => rfl
    | succ k ih =>
      rw [relocateValueF]
      rw [if_neg (by decide)]
      have hget : assocGet [((-1 : Int), (⟨-1, 0⟩ : RelocatableValue))]
          (RelocatableValue.mk (-1) 0).segmentIndex
          = some (⟨-1, 0⟩ : RelocatableValue) := rfl
      rw [hget]
      dsimp only
      rw [ih]
      rfl

/-- Witness for C5 (amended): an empty frozen memory is refused, and the
cyclic chain yields no result at depth 5. -/
theorem claim_C5_relocate_frozen_witness :
    MemoryDict.relocateMemory ⟨[], true, []⟩ = .error .memoryFrozen ∧
    relocateValueF 5 [((-1 : Int), (⟨-1, 0⟩ : RelocatableValue))] (.rel ⟨-1, 0⟩)
      = none :=
  ⟨claim_C5_relocate_frozen_no_cycle_detection.1 ⟨[], true, []⟩ rfl,
   claim_C5_relocate_frozen_no_cycle_detection.2 5⟩

/-- C10: immediately after `VirtualMachine::new`, `accessed_addresses`
holds exactly the addresses `program_base + i` for `i` below the length
of the program data. -/
theorem claim_C10_initial_accessed (prime : Int) (pc ap fp : MaybeRelocatable)
    (memory : MemoryDict) (hints : List (MaybeRelocatable × List HintOutcome))
    (base : MaybeRelocatable) (n : Nat) (a : MaybeRelocatable) :
    a ∈ (vmNew prime pc ap fp memory hints base n).accessedAddresses ↔
      ∃ i < n, a = base.addInt i :=
  mem_buildAccessed base n a

/-- C6: with a step budget of `k` on a (hint-free) run whose first `k`
steps succeed without reaching the target or the final pc, and whose
state after `k` steps is still not at the target, `run_until_pc` executes
exactly `k` steps, fails (with the error the code labels "End of program
was not reached", its placeholder `VmException`), and leaves the runner
in the state of the last completed step, with `current_step` advanced by
exactly `k`. -/
theorem claim_C6_run_until_pc_budget (arules : ARules) (vrules : VRules)
    (addr : MaybeRelocatable) (k : Nat) (r0 rk : RunnerState)
    (hhints : r0.vm.hints = [])
    (hiter : iterVmStep arules vrules k r0 = .ok rk)
    (hne : ∀ (j : Nat) (rj : RunnerState), j < k →
      iterVmStep arules vrules j r0 = .ok rj → rj.vm.pc ≠ addr)
    (hk : rk.vm.pc ≠ addr) :
    runUntilPc addr arules vrules k ⟨some (k : Int)⟩ r0
      = some (.error .vmException, rk) ∧
    rk.vm.currentStep = r0.vm.currentStep + k := by
  refine ⟨runUntilPc_exhausts arules vrules addr k r0 rk hiter hne hk, ?_⟩
  exact (iterVmStep_no_hints arules vrules k r0 rk hhints hiter).1

/-- Witness for C6: one NOP step from `rNop` with budget 1 and an
unreached target `(9,9)`. -/
theorem claim_C6_run_until_pc_budget_witness :
    runUntilPc (.rel ⟨9, 9⟩) ARnone VRnone 1 ⟨some (1 : Int)⟩ rNop
      = some (.error .vmException, (vmStep ARnone VRnone rNop).2) ∧
    (vmStep ARnone VRnone rNop).2.vm.currentStep = rNop.vm.currentStep + 1 := by
  have hiter : iterVmStep ARnone VRnone 1 rNop
      = .ok ((vmStep ARnone VRnone rNop).2) := rfl
  have hne : ∀ (j : Nat) (rj : RunnerState), j < 1 →
      iterVmStep ARnone VRnone j rNop = .ok rj → rj.vm.pc ≠ .rel ⟨9, 9⟩ := by
    intro j rj hj hji
    have hj0 : j = 0 := by omega
    subst hj0
    simp only [iterVmStep, Except.ok.injEq] at hji
    subst hji
    decide
  have hk : (vmStep ARnone VRnone rNop).2.vm.pc ≠ .rel ⟨9, 9⟩ := by decide
  have h := claim_C6_run_until_pc_budget ARnone VRnone (.rel ⟨9, 9⟩) 1 rNop
    ((vmStep ARnone VRnone rNop).2) rfl hiter hne hk
  simpa using h

/-- C7: after `VirtualMachine::new` the trace is empty and
`current_step = 0` (so their invariant holds), and every successful step
either leaves both unchanged (a step skipped by a hint via
`skip_instruction_execution`) or appends exactly one trace entry holding
the `(pc, ap, fp)` snapshot taken before the register update while
incrementing `current_step` by one — hence trace length equals
`current_step` at every step boundary. -/
theorem claim_C7_trace_invariant :
    (∀ (prime : Int) (pc ap fp : MaybeRelocatable) (memory : MemoryDict)
       (hints : List (MaybeRelocatable × List HintOutcome))
       (base : MaybeRelocatable) (n : Nat),
       (vmNew prime pc ap fp memory hints base n).trace = [] ∧
       (vmNew prime pc ap fp memory hints base n).currentStep = 0) ∧
    (∀ (arules : ARules) (vrules : VRules) (s s' : VMState),
       step arules vrules s = (.ok (), s') →
       ((s'.trace = s.trace ∧ s'.currentStep = s.currentStep) ∨
        (s'.trace = s.trace ++ [TraceEntry.mk s.pc s.ap s.fp] ∧
         s'.currentStep = s.currentStep + 1)) ∧
       ((s.trace.length : Int) = s.currentStep →
        (s'.trace.length : Int) = s'.currentStep)) := by
  constructor
  · intro _ _ _ _ _ _ _ _
    exact ⟨rfl, rfl⟩
  · intro arules vrules s s' h
    obtain ⟨hcase, -⟩ := step_ok_cases arules vrules s s' h
    refine ⟨hcase, ?_⟩
    intro hinv
    rcases hcase with ⟨ht, hcs⟩ | ⟨ht, hcs⟩
    · rw [ht, hcs]
      exact hinv
    · simp only [ht, hcs, List.length_append, List.length_cons, List.length_nil]
      push_cast
      omega

/-- Witness for C7: the invariant transported across one concrete
successful NOP step from `sNop`. -/
theorem claim_C7_trace_invariant_witness :
    ((step ARnone VRnone sNop).2.trace.length : Int)
      = (step ARnone VRnone sNop).2.currentStep := by
  have h : step ARnone VRnone sNop = (.ok (), (step ARnone VRnone sNop).2) := rfl
  exact (claim_C7_trace_invariant.2 ARnone VRnone sNop _ h).2 (by simp [sNop])

/-- C8: every successfully decoded CALL instruction has
`ap_update = ADD2` (rewritten from a wire REGULAR) and
`fp_update = AP_PLUS2`; an encoding with the CALL opcode bits and a wire
AP_ADD or AP_ADD1 flag never decodes; and every decoded RET has
`fp_update = DST`. -/
theorem claim_C8_decode_call_ret :
    (∀ (enc : Int) (imm : Option Int) (i : Instruction),
      decodeInstruction enc imm = .ok i →
      (i.opcode = .CALL → i.apUpdate = .ADD2 ∧ i.fpUpdate = .AP_PLUS2) ∧
      (i.opcode = .RET → i.fpUpdate = .DST)) ∧
    (∀ (enc : Int) (imm : Option Int),
      flagBit (enc / 2 ^ 48) 12 = true → flagBit (enc / 2 ^ 48) 13 = false →
      flagBit (enc / 2 ^ 48) 14 = false →
      (flagBit (enc / 2 ^ 48) 10 = true ∨ flagBit (enc / 2 ^ 48) 11 = true) →
      ∀ i : Instruction, decodeInstruction enc imm ≠ .ok i) := by
  constructor
  · intro enc imm i h
    unfold decodeInstruction at h
    repeat' split at h <;> try simp_all
    all_goals try subst h
    all_goals try (refine ⟨?_, ?_⟩ <;> intro hop <;> simp_all)
    all_goals (rename_i hif; split at hif <;> simp_all)
  · intro enc imm h12 h13 h14 hap i h
    unfold decodeInstruction at h
    cases hv : decodeInstructionValues enc with
    | error e =>
      rw [hv] at h
      simp at h
    | ok quad =>
      obtain ⟨flags, o0, o1, o2⟩ := quad
      rw [hv] at h
      dsimp only at h
      have hflags : flags = enc / 2 ^ 48 := by
        unfold decodeInstructionValues at hv
        split at hv
        · simp at hv
        · simp only [Except.ok.injEq, Prod.mk.injEq] at hv
          exact hv.1.symm
      subst hflags
      have hopc : decodeOpcode (enc / 2 ^ 48) = .ok .CALL := by
        unfold decodeOpcode
        rw [h12, h13, h14]
      have hapu : decodeApUpdate (enc / 2 ^ 48) = .ok .ADD ∨
          decodeApUpdate (enc / 2 ^ 48) = .ok .ADD1 ∨
          decodeApUpdate (enc / 2 ^ 48) = .error .invalidApUpdateEncoding := by
        unfold decodeApUpdate
        rcases hap with h10 | h11
        · rw [h10]
          cases h11v : flagBit (enc / 2 ^ 48) 11
          · left; rfl
          · right; right; rfl
        · rw [h11]
          cases h10v : flagBit (enc / 2 ^ 48) 10
          · right; left; rfl
          · right; right; rfl
      repeat' split at h <;> try simp_all
      all_goals (rcases hapu with h1 | h1 <;> subst h1 <;> simp_all)

/-- Witness for C8: the CALL encoding with wire-REGULAR ap flags decodes
to `ADD2`/`AP_PLUS2`, and the same encoding with the AP_ADD bit set is
rejected. -/
theorem claim_C8_decode_call_ret_witness :
    ((⟨0, 1, 1, some 5, .AP, .AP, .IMM, .OP1, .REGULAR, .ADD2, .AP_PLUS2,
        .CALL⟩ : Instruction).apUpdate = ApUpdate.ADD2 ∧
     (⟨0, 1, 1, some 5, .AP, .AP, .IMM, .OP1, .REGULAR, .ADD2, .AP_PLUS2,
        .CALL⟩ : Instruction).fpUpdate = FpUpdate.AP_PLUS2) ∧
    decodeInstruction
        ((2 ^ 2 + 2 ^ 10 + 2 ^ 12) * 2 ^ 48 + 32769 * 2 ^ 32 + 32769 * 2 ^ 16 + 32768)
        (some 5)
      ≠ .ok (⟨0, 1, 1, some 5, .AP, .AP, .IMM, .OP1, .REGULAR, .ADD2, .AP_PLUS2,
              .CALL⟩ : Instruction) := by
  constructor
  · exact (claim_C8_decode_call_ret.1
      ((2 ^ 2 + 2 ^ 12) * 2 ^ 48 + 32769 * 2 ^ 32 + 32769 * 2 ^ 16 + 32768)
      (some 5)
      ⟨0, 1, 1, some 5, .AP, .AP, .IMM, .OP1, .REGULAR, .ADD2, .AP_PLUS2, .CALL⟩
      (by rfl)).1 rfl
  · exact claim_C8_decode_call_ret.2
      ((2 ^ 2 + 2 ^ 10 + 2 ^ 12) * 2 ^ 48 + 32769 * 2 ^ 32 + 32769 * 2 ^ 16 + 32768)
      (some 5) (by decide) (by decide) (by decide) (Or.inl (by decide)) _

/-- C9: for every successfully decoded instruction, a non-IMM op1 source
forces `imm = none` (even when an immediate argument was supplied to the
decoder) and hence size 1; the size is 2 exactly when the decoded
instruction carries an immediate, which happens exactly for
`op1_src = IMM`. -/
theorem claim_C9_decode_imm_size (enc : Int) (imm : Option Int) (i : Instruction)
    (h : decodeInstruction enc imm = .ok i) :
    (i.op1Addr ≠ .IMM → i.imm = none ∧ i.instSize = 1) ∧
    (i.instSize = 2 ↔ i.imm.isSome = true) ∧
    (i.op1Addr = .IMM → i.imm.isSome = true) := by
  unfold decodeInstruction at h
  cases hv : decodeInstructionValues enc with
  | error e =>
    rw [hv] at h
    simp at h
  | ok quad =>
    obtain ⟨flags, o0, o1, o2⟩ := quad
    rw [hv] at h
    dsimp only at h
    cases h1 : decodeOp1 flags with
    | error e =>
      rw [h1] at h
      simp at h
    | ok op1A =>
      rw [h1] at h
      dsimp only at h
      cases op1A with
      | IMM =>
        cases imm with
        | none =>
          dsimp only at h
          simp at h
        | some v =>
          dsimp only at h
          repeat' split at h <;> try simp_all
          all_goals subst h
          all_goals simp [Instruction.instSize]
      | AP =>
        dsimp only at h
        repeat' split at h <;> try simp_all
        all_goals subst h
        all_goals simp [Instruction.instSize]
      | FP =>
        dsimp only at h
        repeat' split at h <;> try simp_all
        all_goals subst h
        all_goals simp [Instruction.instSize]
      | OP0 =>
        dsimp only at h
        repeat' split at h <;> try simp_all
        all_goals subst h
        all_goals simp [Instruction.instSize]

/-- Witness for C9: decoding the all-flags-zero instruction (op1 from
OP0) with a supplied immediate of 5 ignores the immediate and yields
size 1. -/
theorem claim_C9_decode_imm_size_witness :
    (⟨0, 1, 0, none, .AP, .AP, .OP0, .OP1, .REGULAR, .REGULAR, .REGULAR,
       .NOP⟩ : Instruction).imm = none ∧
    (⟨0, 1, 0, none, .AP, .AP, .OP0, .OP1, .REGULAR, .REGULAR, .REGULAR,
       .NOP⟩ : Instruction).instSize = 1 := by
  have h : decodeInstruction encNop (some 5)
      = .ok ⟨0, 1, 0, none, .AP, .AP, .OP0, .OP1, .REGULAR, .REGULAR, .REGULAR,
             .NOP⟩ := rfl
  exact (claim_C9_decode_imm_size encNop (some 5) _ h).1 (by decide)
